import Mathlib

/-!
Verification development for the lock-free concurrent data structures of the
repository: the CAS-based LIFO stack and the Michael-Scott style FIFO queue in
Concepts/IPC/Synchronization Mechanisms/atomic.cpp, and the CAS-based stack and
ABA-prone stack in Concepts/Multithreading/04_atomic_operations.cpp.

The embedding is a sequential (single-thread, no interference) small-step model
of the heap structure these classes maintain:

* every heap node carries a fresh allocation identifier (field id), so that
  deletions and reclamation can be observed;
* each structure records, besides the chain of nodes reachable from its head,
  the list of node ids already passed to delete (field freed) and the list of
  node ids handed to a deferred-reclamation subsystem (field retired; the
  source has no such subsystem, so no operation ever extends it);
* the queue keeps an explicit index tailPos of the node its tail_ pointer
  designates, so that states where tail_ lags behind the last node can be
  described and the helping branch of dequeue can be analysed;
* a CAS that cannot fail in a sequential run is modelled as succeeding;
  the unbounded retry loops are modelled by a step function plus a fuel
  that is provably sufficient in every sequential run.
-/

namespace AtomicCpp

/-- Node of LockFreeStack in atomic.cpp: `T data; std::atomic<Node*> next;`.
The id is the allocation identity of the node; the next chain is represented
by the position of the node in the stack's node list. -/
structure SNode (T : Type) where
  id : Nat
  data : T
deriving DecidableEq

/-- LockFreeStack of atomic.cpp (lines 32-81): a single atomic head_ pointer.
`nodes` is the chain reachable from head_ via next (head_ is `nodes.head?`,
the empty list standing for `head_ == nullptr`); `nextId` supplies fresh
allocation ids; `freed` collects ids passed to `delete`; `retired` collects
ids handed to a deferred-reclamation subsystem (none exists in the source,
so it stays empty). -/
structure LockFreeStack (T : Type) where
  nodes : List (SNode T)
  nextId : Nat
  freed : List Nat
  retired : List Nat
deriving DecidableEq

/-- A default-constructed LockFreeStack: `std::atomic<Node*> head_{nullptr}`. -/
def LockFreeStack.init (T : Type) : LockFreeStack T :=
  ⟨[], 0, [], []⟩

/-- `void push(const T& item)` (atomic.cpp lines 52-60): allocate a node,
set its next to the loaded head_, and CAS head_ to the new node.  In a
sequential run the compare_exchange_weak loop succeeds at once, so the new
node simply becomes the head of the chain. -/
def LockFreeStack.push {T : Type} (s : LockFreeStack T) (v : T) : LockFreeStack T :=
  { s with nodes := ⟨s.nextId, v⟩ :: s.nodes, nextId := s.nextId + 1 }

/-- `bool pop(T& result)` (atomic.cpp lines 62-76): load head_; if null,
return false; otherwise CAS head_ to old_head->next (sequentially this
succeeds at once), read the payload, and `delete old_head` immediately —
the deleted node id goes straight onto `freed`, never onto `retired`.
The boolean-and-out-parameter result is modelled as an Option. -/
def LockFreeStack.pop {T : Type} (s : LockFreeStack T) : Option T × LockFreeStack T :=
  match s.nodes with
  | [] => (none, s)
  | n :: rest => (some n.data, { s with nodes := rest, freed := n.id :: s.freed })

/-- `bool empty() const` (atomic.cpp lines 78-80): `head_.load() == nullptr`. -/
def LockFreeStack.empty {T : Type} (s : LockFreeStack T) : Bool :=
  s.nodes.isEmpty

/-- A finite sequence of push calls, first element pushed first. -/
def LockFreeStack.pushAll {T : Type} (s : LockFreeStack T) (l : List T) : LockFreeStack T :=
  l.foldl LockFreeStack.push s

/-- Repeated pop with explicit fuel; each successful pop shortens the chain,
so fuel `s.nodes.length` always suffices. -/
def LockFreeStack.drainLoop {T : Type} : Nat → LockFreeStack T → List T
  | 0, _ => []
  | fuel + 1, s =>
    match s.pop with
    | (none, _) => []
    | (some v, s') => v :: LockFreeStack.drainLoop fuel s'

/-- Full drain: pop repeatedly until pop reports the stack empty. -/
def LockFreeStack.drain {T : Type} (s : LockFreeStack T) : List T :=
  LockFreeStack.drainLoop s.nodes.length s

/-- Node of LockFreeQueue in atomic.cpp: `std::atomic<T*> data{nullptr};
std::atomic<Node*> next{nullptr};`.  `data` is the value of the data pointer
(none = nullptr, as in the dummy node); `dataFreed` records that `delete data`
has run on the payload (the pointer itself is left dangling by the source,
which never stores nullptr back). -/
structure QNode (T : Type) where
  id : Nat
  data : Option T
  dataFreed : Bool
deriving DecidableEq

/-- LockFreeQueue of atomic.cpp (lines 83-168).  `chain` is the list of nodes
reachable from head_ via next (head_ is `chain.head?`, the true last node is
`chain.getLast?`); `tailPos` is the index in `chain` of the node tail_ points
at (it may lag behind the true last node); `freed` and `retired` are as for
the stack. -/
structure LockFreeQueue (T : Type) where
  chain : List (QNode T)
  tailPos : Nat
  nextId : Nat
  freed : List Nat
  retired : List Nat
deriving DecidableEq

/-- `LockFreeQueue()` (atomic.cpp lines 96-100): allocate a dummy node
(data pointer null) and store it into both head_ and tail_. -/
def LockFreeQueue.init (T : Type) : LockFreeQueue T :=
  ⟨[⟨0, none, false⟩], 0, 1, [], []⟩

/-- The retry loop of `void enqueue(const T& item)` (atomic.cpp lines
113-127): load tail_ into last and last->next into next; if next is non-null
some thread linked a node without advancing tail_, so help by CASing tail_
forward and retry; if next is null, CAS last->next from null to the new node
(sequentially this succeeds) and leave the loop.  `fuel` bounds the retries;
`chain.length` suffices because each help moves tailPos strictly forward. -/
def LockFreeQueue.enqueueLoop {T : Type} :
    Nat → LockFreeQueue T → QNode T → LockFreeQueue T
  | 0, q, _ => q
  | fuel + 1, q, nd =>
    if q.tailPos + 1 < q.chain.length then
      LockFreeQueue.enqueueLoop fuel { q with tailPos := q.tailPos + 1 } nd
    else
      { q with chain := q.chain ++ [nd] }

/-- `void enqueue(const T& item)` (atomic.cpp lines 109-132): allocate a node
and a payload (`new Node` / `new T`), store the payload pointer into the node,
run the linking loop, then advance tail_ to the new node with a final CAS
whose expected value is a fresh `tail_.load()` (sequentially it succeeds). -/
def LockFreeQueue.enqueue {T : Type} (q : LockFreeQueue T) (v : T) : LockFreeQueue T :=
  let nd : QNode T := ⟨q.nextId, some v, false⟩
  let q' := LockFreeQueue.enqueueLoop q.chain.length { q with nextId := q.nextId + 1 } nd
  { q' with tailPos := q'.chain.length - 1 }

/-- Outcome of one iteration of the `while (true)` loop of dequeue. -/
inductive DequeueStep (T : Type) where
  | emptyQ : DequeueStep T
  | retry : LockFreeQueue T → DequeueStep T
  | value : T → LockFreeQueue T → DequeueStep T
deriving DecidableEq

/-- One iteration of `bool dequeue(T& result)` (atomic.cpp lines 134-166):
load first = head_, last = tail_, next = first->next (the recheck
`first == head_.load()` always passes sequentially).  If first == last
(that is, tailPos = 0): return false when next is null, otherwise help
advance tail_ toward next and retry.  Otherwise: if next is null or
next->data is null, retry; else CAS head_ from first to next
(sequentially succeeding), read the payload out of next, `delete data`
(recorded by dataFreed on the node that becomes the new head) and
`delete first` (recorded on `freed` — never on `retired`). -/
def LockFreeQueue.dequeueStep {T : Type} (q : LockFreeQueue T) : DequeueStep T :=
  match q.chain with
  | [] => DequeueStep.emptyQ
  | first :: rest =>
    if q.tailPos = 0 then
      match rest.head? with
      | none => DequeueStep.emptyQ
      | some _ => DequeueStep.retry { q with tailPos := 1 }
    else
      match rest with
      | [] => DequeueStep.retry q
      | next :: rest2 =>
        match next.data with
        | none => DequeueStep.retry q
        | some v =>
          DequeueStep.value v
            { q with
              chain := { next with dataFreed := true } :: rest2,
              tailPos := q.tailPos - 1,
              freed := first.id :: q.freed }

/-- The `while (true)` loop of dequeue, with explicit fuel.  In every
sequential run one iteration resolves, so any positive fuel suffices. -/
def LockFreeQueue.dequeueLoop {T : Type} :
    Nat → LockFreeQueue T → Option T × LockFreeQueue T
  | 0, q => (none, q)
  | fuel + 1, q =>
    match q.dequeueStep with
    | DequeueStep.emptyQ => (none, q)
    | DequeueStep.value v q' => (some v, q')
    | DequeueStep.retry q' => LockFreeQueue.dequeueLoop fuel q'

/-- `bool dequeue(T& result)` as a whole-call operation. -/
def LockFreeQueue.dequeue {T : Type} (q : LockFreeQueue T) : Option T × LockFreeQueue T :=
  LockFreeQueue.dequeueLoop (q.chain.length + 1) q

/-- A finite sequence of enqueue calls, first element enqueued first. -/
def LockFreeQueue.enqAll {T : Type} (q : LockFreeQueue T) (l : List T) : LockFreeQueue T :=
  l.foldl LockFreeQueue.enqueue q

/-- Repeated dequeue with fuel; each success shortens the chain, so fuel
`chain.length` always suffices. -/
def LockFreeQueue.drainLoop {T : Type} : Nat → LockFreeQueue T → List T
  | 0, _ => []
  | fuel + 1, q =>
    match q.dequeue with
    | (none, _) => []
    | (some v, q') => v :: LockFreeQueue.drainLoop fuel q'

/-- Full drain: dequeue repeatedly until dequeue reports the queue empty. -/
def LockFreeQueue.drain {T : Type} (q : LockFreeQueue T) : List T :=
  LockFreeQueue.drainLoop q.chain.length q

/-- The logical contents of the queue: the payloads of the nodes after the
head node (the head is the dummy or the last consumed node; its successor
chain carries the elements, oldest first). -/
def LockFreeQueue.elems {T : Type} (q : LockFreeQueue T) : List T :=
  q.chain.tail.filterMap QNode.data

/-- The sequential well-formedness invariant of the queue: the chain is never
empty (head_ is non-null), tail_ points at the true last node
(tailPos + 1 = chain.length, so tail_ is non-null as well), every node after
the head carries a live payload, and the head node is the original dummy
(id 0, data pointer null) or a consumed node whose payload was deleted by
the dequeue that removed its predecessor. -/
def LockFreeQueue.WellFormed {T : Type} (q : LockFreeQueue T) : Prop :=
  q.chain ≠ [] ∧
  q.tailPos + 1 = q.chain.length ∧
  (∀ n ∈ q.chain.tail, n.data.isSome = true ∧ n.dataFreed = false) ∧
  (∀ h ∈ q.chain.head?.toList, (h.id = 0 ∧ h.data = none) ∨ h.dataFreed = true)

end AtomicCpp

namespace AtomicOps04

/-- Node of LockFreeStack in 04_atomic_operations.cpp (lines 99-105):
`std::atomic<T*> data; Node* next;`.  `data` is the value of the data
pointer (none = nullptr, its default). -/
structure SNode (T : Type) where
  id : Nat
  data : Option T
deriving DecidableEq

/-- LockFreeStack of 04_atomic_operations.cpp (lines 97-144): a single atomic
head_ pointer, nodes storing a heap-allocated payload pointer.  Fields as in
the atomic.cpp stack model. -/
structure LockFreeStack (T : Type) where
  nodes : List (SNode T)
  nextId : Nat
  freed : List Nat
deriving DecidableEq

/-- `LockFreeStack() : head_(nullptr)`. -/
def LockFreeStack.init (T : Type) : LockFreeStack T :=
  ⟨[], 0, []⟩

/-- `void push(T item)` (lines 112-121): allocate a node, store `new T(item)`
into its data pointer, set its next to the loaded head_, and CAS head_ to the
new node (sequentially succeeding at once). -/
def LockFreeStack.push {T : Type} (s : LockFreeStack T) (v : T) : LockFreeStack T :=
  { s with nodes := ⟨s.nextId, some v⟩ :: s.nodes, nextId := s.nextId + 1 }

/-- `std::unique_ptr<T> pop()` (lines 123-135): load head_; while non-null,
CAS head_ to old_head->next (sequentially succeeding at once); if a node was
unlinked, move its data pointer into the returned unique_ptr and
`delete old_head` immediately.  A null unique_ptr is `none`. -/
def LockFreeStack.pop {T : Type} (s : LockFreeStack T) : Option T × LockFreeStack T :=
  match s.nodes with
  | [] => (none, s)
  | n :: rest => (n.data, { s with nodes := rest, freed := n.id :: s.freed })

/-- `bool empty() const` (lines 137-139): `head_.load() == nullptr`. -/
def LockFreeStack.empty {T : Type} (s : LockFreeStack T) : Bool :=
  s.nodes.isEmpty

/-- Node used by ABAProneStack (lines 284-289): `int data;
std::atomic<Node*> next;`. -/
structure ABANode where
  id : Nat
  data : Int
deriving DecidableEq

/-- ABAProneStack of 04_atomic_operations.cpp (lines 291-337): a single
atomic head_ over int-carrying nodes. -/
structure ABAProneStack where
  nodes : List ABANode
  nextId : Nat
  freed : List Nat
deriving DecidableEq

/-- `ABAProneStack() : head_(nullptr)`. -/
def ABAProneStack.init : ABAProneStack :=
  ⟨[], 0, []⟩

/-- `void push(int data)` (lines 296-303): allocate, link to loaded head_,
CAS head_ (sequentially succeeding at once). -/
def ABAProneStack.push (s : ABAProneStack) (v : Int) : ABAProneStack :=
  { s with nodes := ⟨s.nextId, v⟩ :: s.nodes, nextId := s.nextId + 1 }

/-- `bool pop(int& result)` (lines 305-323): load head_; if null return
false; read old_head->next; compare_exchange_strong head_ from old_head to
next (in a sequential run this succeeds), read the data, `delete old_head`
immediately, return true.  Modelled as an Option result. -/
def ABAProneStack.pop (s : ABAProneStack) : Option Int × ABAProneStack :=
  match s.nodes with
  | [] => (none, s)
  | n :: rest => (some n.data, { s with nodes := rest, freed := n.id :: s.freed })

end AtomicOps04

/-- An operation applied to a sequential LIFO stack. -/
inductive StackOp (T : Type) where
  | push : T → StackOp T
  | pop : StackOp T
  | emptyQuery : StackOp T
deriving DecidableEq

/-- An observation produced by a stack operation: the value returned by pop
(none standing for a false return with the out-parameter untouched, resp. for
a null unique_ptr), or the boolean returned by empty(). -/
inductive StackObs (T : Type) where
  | pushed : StackObs T
  | popped : Option T → StackObs T
  | emptiness : Bool → StackObs T
deriving DecidableEq

/-- Run a sequence of operations on the atomic.cpp LockFreeStack, collecting
the observations. -/
def runAtomicCppStack {T : Type} :
    List (StackOp T) → AtomicCpp.LockFreeStack T → List (StackObs T)
  | [], _ => []
  | StackOp.push v :: ops, s => StackObs.pushed :: runAtomicCppStack ops (s.push v)
  | StackOp.pop :: ops, s =>
    StackObs.popped (s.pop).1 :: runAtomicCppStack ops (s.pop).2
  | StackOp.emptyQuery :: ops, s =>
    StackObs.emptiness s.empty :: runAtomicCppStack ops s

/-- Run a sequence of operations on the 04_atomic_operations.cpp
LockFreeStack, collecting the observations. -/
def runAtomicOps04Stack {T : Type} :
    List (StackOp T) → AtomicOps04.LockFreeStack T → List (StackObs T)
  | [], _ => []
  | StackOp.push v :: ops, s => StackObs.pushed :: runAtomicOps04Stack ops (s.push v)
  | StackOp.pop :: ops, s =>
    StackObs.popped (s.pop).1 :: runAtomicOps04Stack ops (s.pop).2
  | StackOp.emptyQuery :: ops, s =>
    StackObs.emptiness s.empty :: runAtomicOps04Stack ops s

namespace MemOrderModel

/-- The std::memory_order value written at an atomic call site (seqCst is the
default used when no ordering argument appears in the source). -/
inductive MemoryOrder where
  | relaxed : MemoryOrder
  | consume : MemoryOrder
  | acquire : MemoryOrder
  | release : MemoryOrder
  | acqRel : MemoryOrder
  | seqCst : MemoryOrder
deriving DecidableEq

/-- Kind of atomic access at a call site. -/
inductive AccessKind where
  | load : AccessKind
  | store : AccessKind
  | rmw : AccessKind
deriving DecidableEq

/-- A static atomic call site in the stack/queue operations: its access kind,
the ordering written in the source, whether it is a load whose result the
operation dereferences, whether it is a store/CAS that makes a new node
reachable to other threads, and whether it operates on an independent
diagnostic counter. -/
structure AtomicSite where
  kind : AccessKind
  order : MemoryOrder
  dereferencedLoad : Bool
  publishes : Bool
  diagCounter : Bool
deriving DecidableEq

/-- Every atomic call site of LockFreeStack (atomic.cpp lines 44-80),
LockFreeQueue (atomic.cpp lines 103-166) and the LockFreeStack of
04_atomic_operations.cpp (lines 112-139), in source order.  None of these
calls passes an ordering argument, so all use the seq_cst default; none of
them touches a diagnostic counter. -/
def lockFreeSites : List AtomicSite :=
  [ -- atomic.cpp stack push: head_.load() (result stored into new_node->next)
    ⟨AccessKind.load, MemoryOrder.seqCst, false, false, false⟩,
    -- atomic.cpp stack push: head_.compare_exchange_weak(new_node->next, new_node)
    ⟨AccessKind.rmw, MemoryOrder.seqCst, false, true, false⟩,
    -- atomic.cpp stack pop: head_.load() (old_head is then dereferenced)
    ⟨AccessKind.load, MemoryOrder.seqCst, true, false, false⟩,
    -- atomic.cpp stack pop: old_head->next.load()
    ⟨AccessKind.load, MemoryOrder.seqCst, false, false, false⟩,
    -- atomic.cpp stack pop: head_.compare_exchange_weak(old_head, next)
    ⟨AccessKind.rmw, MemoryOrder.seqCst, false, false, false⟩,
    -- atomic.cpp stack empty: head_.load()
    ⟨AccessKind.load, MemoryOrder.seqCst, false, false, false⟩,
    -- atomic.cpp queue enqueue: new_node->data.store(data)
    ⟨AccessKind.store, MemoryOrder.seqCst, false, false, false⟩,
    -- atomic.cpp queue enqueue: tail_.load() (last is then dereferenced)
    ⟨AccessKind.load, MemoryOrder.seqCst, true, false, false⟩,
    -- atomic.cpp queue enqueue: last->next.load()
    ⟨AccessKind.load, MemoryOrder.seqCst, false, false, false⟩,
    -- atomic.cpp queue enqueue: tail_.load() recheck
    ⟨AccessKind.load, MemoryOrder.seqCst, false, false, false⟩,
    -- atomic.cpp queue enqueue: last->next.compare_exchange_weak(next, new_node)
    ⟨AccessKind.rmw, MemoryOrder.seqCst, false, true, false⟩,
    -- atomic.cpp queue enqueue: tail_.compare_exchange_weak(last, next) helping
    ⟨AccessKind.rmw, MemoryOrder.seqCst, false, false, false⟩,
    -- atomic.cpp queue enqueue: tail_.compare_exchange_weak(tail_.load(), new_node)
    ⟨AccessKind.rmw, MemoryOrder.seqCst, false, true, false⟩,
    -- atomic.cpp queue dequeue: head_.load() (first is then dereferenced)
    ⟨AccessKind.load, MemoryOrder.seqCst, true, false, false⟩,
    -- atomic.cpp queue dequeue: tail_.load()
    ⟨AccessKind.load, MemoryOrder.seqCst, false, false, false⟩,
    -- atomic.cpp queue dequeue: first->next.load() (next is then dereferenced)
    ⟨AccessKind.load, MemoryOrder.seqCst, true, false, false⟩,
    -- atomic.cpp queue dequeue: head_.load() recheck
    ⟨AccessKind.load, MemoryOrder.seqCst, false, false, false⟩,
    -- atomic.cpp queue dequeue: tail_.compare_exchange_weak(last, next) helping
    ⟨AccessKind.rmw, MemoryOrder.seqCst, false, false, false⟩,
    -- atomic.cpp queue dequeue: next->data.load() (data is then dereferenced)
    ⟨AccessKind.load, MemoryOrder.seqCst, true, false, false⟩,
    -- atomic.cpp queue dequeue: head_.compare_exchange_weak(first, next)
    ⟨AccessKind.rmw, MemoryOrder.seqCst, false, false, false⟩,
    -- 04 stack push: new_node->data.store(new T(...))
    ⟨AccessKind.store, MemoryOrder.seqCst, false, false, false⟩,
    -- 04 stack push: head_.load() (result stored into new_node->next)
    ⟨AccessKind.load, MemoryOrder.seqCst, false, false, false⟩,
    -- 04 stack push: head_.compare_exchange_weak(new_node->next, new_node)
    ⟨AccessKind.rmw, MemoryOrder.seqCst, false, true, false⟩,
    -- 04 stack pop: head_.load() (old_head is then dereferenced)
    ⟨AccessKind.load, MemoryOrder.seqCst, true, false, false⟩,
    -- 04 stack pop: head_.compare_exchange_weak(old_head, old_head->next)
    ⟨AccessKind.rmw, MemoryOrder.seqCst, false, false, false⟩,
    -- 04 stack pop: old_head->data.load()
    ⟨AccessKind.load, MemoryOrder.seqCst, false, false, false⟩,
    -- 04 stack empty: head_.load()
    ⟨AccessKind.load, MemoryOrder.seqCst, false, false, false⟩ ]

/-- The memory-order policy the specification states: dereferenced loads use
acquire; publishing stores/CAS use release or acquire-release; relaxed is
reserved for independent diagnostic counters. -/
def followsSpecPolicy (s : AtomicSite) : Bool :=
  (!s.dereferencedLoad || (s.order == MemoryOrder.acquire)) &&
  (!s.publishes || (s.order == MemoryOrder.release || s.order == MemoryOrder.acqRel)) &&
  (!(s.order == MemoryOrder.relaxed) || s.diagCounter)

end MemOrderModel

namespace AllocModel

/-- Outcome of one `new` expression. -/
inductive AllocOutcome where
  | ok : AllocOutcome
  | fail : AllocOutcome
deriving DecidableEq

/-- `LockFreeStack::push` of atomic.cpp under an allocator that may fail.
The source's first statement is `Node* new_node = new Node(item);`; the two
later statements write only the private node and then CAS head_, so when the
allocation throws, the exception propagates (`some ()`) before any field of
the stack is touched and the state is returned unchanged. -/
def stackPushChecked {T : Type} (a : AllocOutcome) (s : AtomicCpp.LockFreeStack T)
    (v : T) : Option Unit × AtomicCpp.LockFreeStack T :=
  match a with
  | AllocOutcome.fail => (some (), s)
  | AllocOutcome.ok => (none, s.push v)

/-- `LockFreeQueue::enqueue` of atomic.cpp under an allocator that may fail.
The source begins `Node* new_node = new Node; T* data = new T(...);` and only
afterwards stores into the private node and runs the linking loop, so failure
of either allocation propagates before head_, tail_ or any reachable node's
next is mutated (a failing second allocation leaks the node but leaves the
queue unchanged). -/
def enqueueChecked {T : Type} (aNode aPayload : AllocOutcome)
    (q : AtomicCpp.LockFreeQueue T) (v : T) : Option Unit × AtomicCpp.LockFreeQueue T :=
  match aNode with
  | AllocOutcome.fail => (some (), q)
  | AllocOutcome.ok =>
    match aPayload with
    | AllocOutcome.fail => (some (), q)
    | AllocOutcome.ok => (none, q.enqueue v)

/-- `LockFreeStack::push` of 04_atomic_operations.cpp under an allocator that
may fail.  The source begins `Node* new_node = new Node;` and then
`new_node->data.store(new T(std::move(item)));`; the remaining statements
write only the private node and then CAS head_, so either allocation failing
propagates before the stack is mutated. -/
def stack04PushChecked {T : Type} (aNode aPayload : AllocOutcome)
    (s : AtomicOps04.LockFreeStack T) (v : T) : Option Unit × AtomicOps04.LockFreeStack T :=
  match aNode with
  | AllocOutcome.fail => (some (), s)
  | AllocOutcome.ok =>
    match aPayload with
    | AllocOutcome.fail => (some (), s)
    | AllocOutcome.ok => (none, s.push v)

end AllocModel

/-- Push every element of `l` (in order) onto a fresh atomic.cpp stack and
then drain it completely. -/
def stackRunDrain (l : List Nat) : List Nat :=
  ((AtomicCpp.LockFreeStack.init Nat).pushAll l).drain

/-- Enqueue every element of `l` (in order) into a fresh atomic.cpp queue and
then drain it completely. -/
def queueRunDrain (l : List Nat) : List Nat :=
  ((AtomicCpp.LockFreeQueue.init Nat).enqAll l).drain

/-- A fresh queue after `enqueue(1); enqueue(2); enqueue(3)`. -/
def c2Queue : AtomicCpp.LockFreeQueue Nat :=
  (((AtomicCpp.LockFreeQueue.init Nat).enqueue 1).enqueue 2).enqueue 3

/-- A fresh stack holding the single element 7. -/
def c3Stack : AtomicCpp.LockFreeStack Nat :=
  (AtomicCpp.LockFreeStack.init Nat).push 7

/-- A fresh queue holding the single element 5. -/
def c3Queue : AtomicCpp.LockFreeQueue Nat :=
  (AtomicCpp.LockFreeQueue.init Nat).enqueue 5

/-- A fresh atomic.cpp stack after `push(1); push(2); push(3)`. -/
def c4StackA : AtomicCpp.LockFreeStack Nat :=
  (((AtomicCpp.LockFreeStack.init Nat).push 1).push 2).push 3

/-- A fresh 04_atomic_operations.cpp stack after `push(1); push(2); push(3)`. -/
def c4StackB : AtomicOps04.LockFreeStack Nat :=
  (((AtomicOps04.LockFreeStack.init Nat).push 1).push 2).push 3

/-- A fresh atomic.cpp stack holding the single element 3. -/
def c5Stack : AtomicCpp.LockFreeStack Nat :=
  (AtomicCpp.LockFreeStack.init Nat).push 3

/-- A fresh ABAProneStack holding the single element 4. -/
def c5ABA : AtomicOps04.ABAProneStack :=
  AtomicOps04.ABAProneStack.init.push 4

/-- A queue state in which tail_ lags: the chain is dummy followed by one
linked node, while tail_ still points at the dummy (head == tail with
head->next non-null). -/
def c7LaggingQueue : AtomicCpp.LockFreeQueue Nat :=
  ⟨[⟨0, none, false⟩, ⟨1, some 9, false⟩], 0, 2, [], []⟩

namespace AtomicCpp

theorem LockFreeStack.map_data_pushAll {T : Type} :
    ∀ (l : List T) (s : LockFreeStack T),
      ((s.pushAll l).nodes.map SNode.data) = l.reverse ++ s.nodes.map SNode.data := by
  intro l
  induction l with
  | nil => intro s; simp [LockFreeStack.pushAll]
  | cons v l ih =>
    intro s
    have hstep : s.pushAll (v :: l) = (s.push v).pushAll l := rfl
    rw [hstep, ih]
    simp [LockFreeStack.push]

theorem LockFreeStack.drainLoop_eq {T : Type} :
    ∀ (fuel : Nat) (s : LockFreeStack T), s.nodes.length ≤ fuel →
      LockFreeStack.drainLoop fuel s = s.nodes.map SNode.data := by
  intro fuel
  induction fuel with
  | zero =>
    intro s hs
    have hnil : s.nodes = [] := List.length_eq_zero.mp (Nat.le_zero.mp hs)
    simp [LockFreeStack.drainLoop, hnil]
  | succ fuel ih =>
    intro s hs
    cases h : s.nodes with
    | nil => simp [LockFreeStack.drainLoop, LockFreeStack.pop, h]
    | cons n rest =>
      have hp : s.pop = (some n.data, { s with nodes := rest, freed := n.id :: s.freed }) := by
        simp [LockFreeStack.pop, h]
      have hlen : rest.length ≤ fuel := by
        rw [h] at hs; simpa using hs
      simp only [LockFreeStack.drainLoop, hp, h, List.map_cons]
      exact congrArg (n.data :: ·) (ih _ hlen)

theorem LockFreeStack.drain_eq {T : Type} (s : LockFreeStack T) :
    s.drain = s.nodes.map SNode.data :=
  LockFreeStack.drainLoop_eq s.nodes.length s le_rfl

theorem LockFreeQueue.enqueueLoop_eq {T : Type} (fuel : Nat) (q : LockFreeQueue T)
    (nd : QNode T) (h : q.tailPos + 1 = q.chain.length) (hf : 1 ≤ fuel) :
    LockFreeQueue.enqueueLoop fuel q nd = { q with chain := q.chain ++ [nd] } := by
  cases fuel with
  | zero => omega
  | succ fuel =>
    have hlt : ¬ (q.tailPos + 1 < q.chain.length) := by omega
    simp [LockFreeQueue.enqueueLoop, hlt]

theorem LockFreeQueue.enqueue_eq {T : Type} (q : LockFreeQueue T) (v : T)
    (hne : q.chain ≠ []) (h : q.tailPos + 1 = q.chain.length) :
    q.enqueue v =
      { q with chain := q.chain ++ [⟨q.nextId, some v, false⟩],
               tailPos := q.chain.length,
               nextId := q.nextId + 1 } := by
  have hlen : 1 ≤ q.chain.length := by
    cases hc : q.chain with
    | nil => exact absurd hc hne
    | cons a l => simp [hc]
  simp only [LockFreeQueue.enqueue]
  rw [LockFreeQueue.enqueueLoop_eq q.chain.length { q with nextId := q.nextId + 1 } _ h hlen]
  simp

theorem LockFreeQueue.elems_enqueue {T : Type} (q : LockFreeQueue T) (v : T)
    (hne : q.chain ≠ []) (h : q.tailPos + 1 = q.chain.length) :
    (q.enqueue v).elems = q.elems ++ [v] := by
  rw [LockFreeQueue.enqueue_eq q v hne h]
  cases hc : q.chain with
  | nil => exact absurd hc hne
  | cons a l => simp [LockFreeQueue.elems, hc]

theorem LockFreeQueue.wf_enqueue {T : Type} (q : LockFreeQueue T) (v : T)
    (h : q.WellFormed) : (q.enqueue v).WellFormed := by
  obtain ⟨hne, ht, htail, hhead⟩ := h
  rw [LockFreeQueue.enqueue_eq q v hne ht]
  cases hc : q.chain with
  | nil => exact absurd hc hne
  | cons a l =>
    refine ⟨by simp, by simp [hc], ?_, ?_⟩
    · intro n hn
      simp only [hc, List.cons_append, List.tail_cons, List.mem_append,
        List.mem_singleton] at hn
      rcases hn with hn | rfl
      · exact htail n (by simp [hc, hn])
      · simp
    · intro x hx
      simp only [hc, List.cons_append, List.head?_cons, Option.toList_some,
        List.mem_singleton] at hx
      subst hx
      exact hhead _ (by simp [hc])

theorem LockFreeQueue.wf_init (T : Type) : (LockFreeQueue.init T).WellFormed := by
  refine ⟨by simp [LockFreeQueue.init], by simp [LockFreeQueue.init], ?_, ?_⟩
  · intro n hn
    simp [LockFreeQueue.init] at hn
  · intro x hx
    simp [LockFreeQueue.init] at hx
    subst hx
    exact Or.inl ⟨rfl, rfl⟩

theorem LockFreeQueue.dequeueStep_single {T : Type} (q : LockFreeQueue T) (a : QNode T)
    (hc : q.chain = [a]) (ht : q.tailPos = 0) : q.dequeueStep = DequeueStep.emptyQ := by
  simp [LockFreeQueue.dequeueStep, hc, ht]

theorem LockFreeQueue.dequeueStep_cons {T : Type} (q : LockFreeQueue T)
    (first next : QNode T) (rest2 : List (QNode T)) (v : T)
    (hc : q.chain = first :: next :: rest2) (ht : q.tailPos ≠ 0)
    (hd : next.data = some v) :
    q.dequeueStep = DequeueStep.value v
      { q with chain := { next with dataFreed := true } :: rest2,
               tailPos := q.tailPos - 1,
               freed := first.id :: q.freed } := by
  simp [LockFreeQueue.dequeueStep, hc, ht, hd]

theorem LockFreeQueue.dequeue_step_emptyQ {T : Type} (q : LockFreeQueue T)
    (h : q.dequeueStep = DequeueStep.emptyQ) : q.dequeue = (none, q) := by
  simp [LockFreeQueue.dequeue, LockFreeQueue.dequeueLoop, h]

theorem LockFreeQueue.dequeue_step_value {T : Type} (q : LockFreeQueue T) (v : T)
    (q' : LockFreeQueue T) (h : q.dequeueStep = DequeueStep.value v q') :
    q.dequeue = (some v, q') := by
  simp [LockFreeQueue.dequeue, LockFreeQueue.dequeueLoop, h]

theorem LockFreeQueue.dequeue_wf {T : Type} (q : LockFreeQueue T) (h : q.WellFormed) :
    (q.elems = [] ∧ q.dequeue = (none, q)) ∨
    (∃ v, (q.dequeue).1 = some v ∧ q.elems = v :: ((q.dequeue).2).elems ∧
      ((q.dequeue).2).WellFormed ∧ ((q.dequeue).2).chain.length + 1 = q.chain.length) := by
  obtain ⟨hne, ht, htail, hhead⟩ := h
  cases hc : q.chain with
  | nil => exact absurd hc hne
  | cons first rest =>
    cases rest with
    | nil =>
      left
      have ht0 : q.tailPos = 0 := by rw [hc] at ht; simpa using ht
      exact ⟨by simp [LockFreeQueue.elems, hc],
        q.dequeue_step_emptyQ (q.dequeueStep_single first hc ht0)⟩
    | cons next rest2 =>
      right
      have ht0 : q.tailPos ≠ 0 := by rw [hc] at ht; simp at ht; omega
      have hsome : next.data.isSome = true := (htail next (by simp [hc])).1
      obtain ⟨v, hv⟩ := Option.isSome_iff_exists.mp hsome
      have hstep := q.dequeueStep_cons first next rest2 v hc ht0 hv
      have hdq := q.dequeue_step_value v _ hstep
      refine ⟨v, by rw [hdq], ?_, ?_, ?_⟩
      · rw [hdq]
        simp [LockFreeQueue.elems, hc, hv]
      · rw [hdq]
        refine ⟨by simp, ?_, ?_, ?_⟩
        · rw [hc] at ht; simp at ht ⊢; omega
        · intro n hn
          simp only [List.tail_cons] at hn
          exact htail n (by simp [hc]; right; exact hn)
        · intro x hx
          simp only [List.head?_cons, Option.toList_some, List.mem_singleton] at hx
          subst hx
          exact Or.inr rfl
      · rw [hdq]
        simp [hc]

theorem LockFreeQueue.drainLoop_eq_elems {T : Type} :
    ∀ (fuel : Nat) (q : LockFreeQueue T), q.WellFormed → q.chain.length ≤ fuel + 1 →
      LockFreeQueue.drainLoop fuel q = q.elems := by
  intro fuel
  induction fuel with
  | zero =>
    intro q hwf hlen
    obtain ⟨hne, _, _, _⟩ := hwf
    cases hc : q.chain with
    | nil => exact absurd hc hne
    | cons a l =>
      have hnill : l = [] := by
        rw [hc] at hlen
        simpa using List.length_eq_zero.mp (by simpa using hlen)
      simp [LockFreeQueue.drainLoop, LockFreeQueue.elems, hc, hnill]
  | succ fuel ih =>
    intro q hwf hlen
    rcases LockFreeQueue.dequeue_wf q hwf with ⟨he, hdq⟩ | ⟨v, h1, h2, hwf', hlen'⟩
    · simp [LockFreeQueue.drainLoop, hdq, he]
    · cases hq : q.dequeue with
      | mk r q' =>
        rw [hq] at h1 h2 hwf' hlen'
        simp only at h1 h2 hwf' hlen'
        subst h1
        have hlen2 : q'.chain.length ≤ fuel + 1 := by omega
        simp only [LockFreeQueue.drainLoop, hq]
        rw [ih q' hwf' hlen2, h2]

theorem LockFreeQueue.drain_eq_elems {T : Type} (q : LockFreeQueue T)
    (h : q.WellFormed) : q.drain = q.elems :=
  LockFreeQueue.drainLoop_eq_elems q.chain.length q h (Nat.le_succ _)

theorem LockFreeQueue.enqAll_wf {T : Type} :
    ∀ (l : List T) (q : LockFreeQueue T), q.WellFormed →
      (q.enqAll l).WellFormed ∧ (q.enqAll l).elems = q.elems ++ l := by
  intro l
  induction l with
  | nil =>
    intro q h
    exact ⟨h, by simp [LockFreeQueue.enqAll]⟩
  | cons v l ih =>
    intro q h
    have hstep : q.enqAll (v :: l) = (q.enqueue v).enqAll l := rfl
    have hwf' := LockFreeQueue.wf_enqueue q v h
    have he := LockFreeQueue.elems_enqueue q v h.1 h.2.1
    obtain ⟨hw, hel⟩ := ih (q.enqueue v) hwf'
    rw [hstep]
    exact ⟨hw, by rw [hel, he]; simp⟩

end AtomicCpp

theorem stackRunDrain_eq (l : List Nat) : stackRunDrain l = l.reverse := by
  unfold stackRunDrain
  rw [AtomicCpp.LockFreeStack.drain_eq, AtomicCpp.LockFreeStack.map_data_pushAll]
  simp [AtomicCpp.LockFreeStack.init]

theorem queueRunDrain_eq (l : List Nat) : queueRunDrain l = l := by
  unfold queueRunDrain
  obtain ⟨hw, he⟩ := AtomicCpp.LockFreeQueue.enqAll_wf l (AtomicCpp.LockFreeQueue.init Nat)
    (AtomicCpp.LockFreeQueue.wf_init Nat)
  rw [AtomicCpp.LockFreeQueue.drain_eq_elems _ hw, he]
  simp [AtomicCpp.LockFreeQueue.elems, AtomicCpp.LockFreeQueue.init]

theorem run_stack_equiv {T : Type} :
    ∀ (ops : List (StackOp T)) (s1 : AtomicCpp.LockFreeStack T)
      (s2 : AtomicOps04.LockFreeStack T),
      s2.nodes.map AtomicOps04.SNode.data = s1.nodes.map (fun n => some n.data) →
      runAtomicCppStack ops s1 = runAtomicOps04Stack ops s2 := by
  intro ops
  induction ops with
  | nil => intro s1 s2 _; rfl
  | cons op ops ih =>
    intro s1 s2 hrel
    cases op with
    | push v =>
      simp only [runAtomicCppStack, runAtomicOps04Stack]
      refine congrArg (StackObs.pushed :: ·) (ih _ _ ?_)
      simp [AtomicCpp.LockFreeStack.push, AtomicOps04.LockFreeStack.push, hrel]
    | pop =>
      cases h1 : s1.nodes with
      | nil =>
        have h2 : s2.nodes = [] := by
          rw [h1] at hrel
          simp only [List.map_nil] at hrel
          exact List.map_eq_nil_iff.mp hrel
        simp only [runAtomicCppStack, runAtomicOps04Stack, AtomicCpp.LockFreeStack.pop,
          AtomicOps04.LockFreeStack.pop, h1, h2]
        exact congrArg (StackObs.popped none :: ·) (ih _ _ (by rw [hrel]))
      | cons n1 r1 =>
        cases h2 : s2.nodes with
        | nil =>
          rw [h1, h2] at hrel
          simp at hrel
        | cons n2 r2 =>
          rw [h1, h2] at hrel
          simp only [List.map_cons, List.cons.injEq] at hrel
          obtain ⟨hhd, htl⟩ := hrel
          simp only [runAtomicCppStack, runAtomicOps04Stack, AtomicCpp.LockFreeStack.pop,
            AtomicOps04.LockFreeStack.pop, h1, h2, hhd]
          exact congrArg (StackObs.popped (some n1.data) :: ·) (ih _ _ (by simpa using htl))
    | emptyQuery =>
      have hemp : s1.empty = s2.empty := by
        cases h1 : s1.nodes with
        | nil =>
          have h2 : s2.nodes = [] := by
            rw [h1] at hrel
            simp only [List.map_nil] at hrel
            exact List.map_eq_nil_iff.mp hrel
          simp [AtomicCpp.LockFreeStack.empty, AtomicOps04.LockFreeStack.empty, h1, h2]
        | cons n1 r1 =>
          cases h2 : s2.nodes with
          | nil => rw [h1, h2] at hrel; simp at hrel
          | cons n2 r2 =>
            simp [AtomicCpp.LockFreeStack.empty, AtomicOps04.LockFreeStack.empty, h1, h2]
      simp only [runAtomicCppStack, runAtomicOps04Stack, hemp]
      exact congrArg _ (ih _ _ hrel)

/-- Claim C1: for every finite sequence of push (resp. enqueue) calls carrying
pairwise-distinct values, a subsequent full drain of the atomic.cpp stack
(resp. queue) returns exactly as many items as were inserted, with each
inserted value appearing exactly once and no other value appearing. -/
theorem claim_no_lost_no_duplicated (l : List Nat) (hnd : l.Nodup) :
    (stackRunDrain l).length = l.length ∧
    (queueRunDrain l).length = l.length ∧
    (∀ v ∈ l, (stackRunDrain l).count v = 1 ∧ (queueRunDrain l).count v = 1) ∧
    (∀ v, v ∉ l → (stackRunDrain l).count v = 0 ∧ (queueRunDrain l).count v = 0) := by
  rw [stackRunDrain_eq, queueRunDrain_eq]
  refine ⟨by simp, rfl, ?_, ?_⟩
  · intro v hv
    constructor
    · rw [List.count_reverse]
      exact List.count_eq_one_of_mem hnd hv
    · exact List.count_eq_one_of_mem hnd hv
  · intro v hv
    constructor
    · rw [List.count_reverse]
      exact List.count_eq_zero_of_not_mem hv
    · exact List.count_eq_zero_of_not_mem hv

/-- Witness for claim C1 at the concrete pairwise-distinct input [1, 2, 3]. -/
theorem claim_no_lost_no_duplicated_witness :
    (stackRunDrain [1, 2, 3]).length = [1, 2, 3].length ∧
    (queueRunDrain [1, 2, 3]).length = [1, 2, 3].length ∧
    (stackRunDrain [1, 2, 3]).count 2 = 1 ∧ (queueRunDrain [1, 2, 3]).count 2 = 1 ∧
    (stackRunDrain [1, 2, 3]).count 99 = 0 ∧ (queueRunDrain [1, 2, 3]).count 99 = 0 :=
  have h := claim_no_lost_no_duplicated [1, 2, 3] (by decide)
  ⟨h.1, h.2.1, (h.2.2.1 2 (by decide)).1, (h.2.2.1 2 (by decide)).2,
   (h.2.2.2 99 (by decide)).1, (h.2.2.2 99 (by decide)).2⟩

/-- Claim C2: a single thread performing enqueue(1); enqueue(2); enqueue(3) on
a fresh queue and then dequeuing three times succeeds each time and receives
1, 2, 3 in that FIFO order. -/
theorem claim_queue_fifo_order :
    (c2Queue.dequeue).1 = some 1 ∧
    ((c2Queue.dequeue).2.dequeue).1 = some 2 ∧
    (((c2Queue.dequeue).2.dequeue).2.dequeue).1 = some 3 := by decide

/-- Claim C3 evaluation: for a successful pop on a stack holding 7 and a
successful dequeue on a queue holding 5, the unlinked node (id 0 in both
runs) is deleted during the call itself — it lands on the freed list — and
nothing is ever handed to a deferred-reclamation subsystem (the retired list
stays empty), contradicting the deferred-reclamation requirement. -/
theorem claim_immediate_free_on_pop_dequeue :
    (c3Stack.pop).1 = some 7 ∧ (c3Stack.pop).2.freed = [0] ∧
    (c3Stack.pop).2.retired = [] ∧
    (c3Queue.dequeue).1 = some 5 ∧ (c3Queue.dequeue).2.freed = [0] ∧
    (c3Queue.dequeue).2.retired = [] := by decide

/-- Claim C4: a single thread performing push(1); push(2); push(3) on a fresh
stack and then popping three times succeeds each time and receives 3, 2, 1 in
that LIFO order, for the stack of atomic.cpp and the stack of
04_atomic_operations.cpp alike. -/
theorem claim_stack_lifo_order :
    (c4StackA.pop).1 = some 3 ∧
    ((c4StackA.pop).2.pop).1 = some 2 ∧
    (((c4StackA.pop).2.pop).2.pop).1 = some 1 ∧
    (c4StackB.pop).1 = some 3 ∧
    ((c4StackB.pop).2.pop).1 = some 2 ∧
    (((c4StackB.pop).2.pop).2.pop).1 = some 1 := by decide

/-- Claim C5: pop returns none/false exactly when the stack is observed empty
(for the atomic.cpp LockFreeStack and the ABAProneStack alike, both total
functions, hence no blocking or crashing), and on a non-empty stack pop
returns exactly one currently held (previously pushed, not yet returned)
item, removing precisely that one occurrence. -/
theorem claim_pop_empty_behaviour (s : AtomicCpp.LockFreeStack Nat)
    (t : AtomicOps04.ABAProneStack) :
    ((s.pop).1 = none ↔ s.empty = true) ∧
    ((t.pop).1 = none ↔ t.nodes = []) ∧
    (s.nodes ≠ [] → ∃ v, (s.pop).1 = some v ∧ v ∈ s.nodes.map AtomicCpp.SNode.data ∧
      ((s.pop).2.nodes.map AtomicCpp.SNode.data) = (s.nodes.map AtomicCpp.SNode.data).tail) := by
  refine ⟨?_, ?_, ?_⟩
  · cases h : s.nodes with
    | nil => simp [AtomicCpp.LockFreeStack.pop, AtomicCpp.LockFreeStack.empty, h]
    | cons n r => simp [AtomicCpp.LockFreeStack.pop, AtomicCpp.LockFreeStack.empty, h]
  · cases h : t.nodes with
    | nil => simp [AtomicOps04.ABAProneStack.pop, h]
    | cons n r => simp [AtomicOps04.ABAProneStack.pop, h]
  · intro hne
    cases h : s.nodes with
    | nil => exact absurd h hne
    | cons n r =>
      exact ⟨n.data, by simp [AtomicCpp.LockFreeStack.pop, h], by simp [h],
        by simp [AtomicCpp.LockFreeStack.pop, h]⟩

/-- Witness for claim C5 at a stack holding 3 and an ABAProneStack holding 4. -/
theorem claim_pop_empty_behaviour_witness :
    c5Stack.nodes ≠ [] ∧
    (∃ v, (c5Stack.pop).1 = some v ∧ v ∈ c5Stack.nodes.map AtomicCpp.SNode.data ∧
      ((c5Stack.pop).2.nodes.map AtomicCpp.SNode.data) =
        (c5Stack.nodes.map AtomicCpp.SNode.data).tail) :=
  ⟨by decide, (claim_pop_empty_behaviour c5Stack c5ABA).2.2 (by decide)⟩

/-- Claim C6: the queue always holds at least one node: the invariant holds
after construction, and for every well-formed state head_ and tail_ are
non-null (the chain is non-empty and tailPos is a valid index) and both
enqueue and dequeue (successful or empty) preserve well-formedness — in
particular the head stays the permanent dummy or a consumed node whose next
chain carries the logical contents. -/
theorem claim_queue_invariant (q : AtomicCpp.LockFreeQueue Nat) (v : Nat)
    (h : q.WellFormed) :
    (AtomicCpp.LockFreeQueue.init Nat).WellFormed ∧
    q.chain ≠ [] ∧ q.tailPos < q.chain.length ∧
    (q.enqueue v).WellFormed ∧ ((q.dequeue).2).WellFormed := by
  refine ⟨AtomicCpp.LockFreeQueue.wf_init Nat, h.1, ?_,
    AtomicCpp.LockFreeQueue.wf_enqueue q v h, ?_⟩
  · have := h.2.1
    omega
  · rcases AtomicCpp.LockFreeQueue.dequeue_wf q h with ⟨_, hdq⟩ | ⟨_, _, _, hwf, _⟩
    · rw [hdq]
      exact h
    · exact hwf

/-- Witness for claim C6 at the freshly constructed queue. -/
theorem claim_queue_invariant_witness :
    (AtomicCpp.LockFreeQueue.init Nat).WellFormed ∧
    (AtomicCpp.LockFreeQueue.init Nat).chain ≠ [] ∧
    (AtomicCpp.LockFreeQueue.init Nat).tailPos <
      (AtomicCpp.LockFreeQueue.init Nat).chain.length ∧
    ((AtomicCpp.LockFreeQueue.init Nat).enqueue 0).WellFormed ∧
    (((AtomicCpp.LockFreeQueue.init Nat).dequeue).2).WellFormed :=
  claim_queue_invariant (AtomicCpp.LockFreeQueue.init Nat) 0
    (AtomicCpp.LockFreeQueue.wf_init Nat)

/-- Claim C7: whenever an iteration of dequeue observes head == tail
(tailPos = 0) with head->next non-null, it helps advance tail_ toward
head->next and retries, returning no element from that observation; and an
iteration reports the queue empty exactly when it observes head == tail with
head->next null. -/
theorem claim_dequeue_helping (q : AtomicCpp.LockFreeQueue Nat) (hne : q.chain ≠ []) :
    (q.tailPos = 0 → q.chain.tail ≠ [] →
      q.dequeueStep = AtomicCpp.DequeueStep.retry { q with tailPos := 1 } ∧
      ∀ v q', q.dequeueStep ≠ AtomicCpp.DequeueStep.value v q') ∧
    (q.dequeueStep = AtomicCpp.DequeueStep.emptyQ ↔
      q.tailPos = 0 ∧ q.chain.tail = []) := by
  cases hc : q.chain with
  | nil => exact absurd hc hne
  | cons first rest =>
    constructor
    · intro ht hrest
      cases rest with
      | nil => simp [hc] at hrest
      | cons next rest2 =>
        refine ⟨?_, ?_⟩
        · simp [AtomicCpp.LockFreeQueue.dequeueStep, hc, ht]
        · intro v q' hcontra
          simp [AtomicCpp.LockFreeQueue.dequeueStep, hc, ht] at hcontra
    · constructor
      · intro hstep
        by_cases ht : q.tailPos = 0
        · cases rest with
          | nil => exact ⟨ht, by simp [hc]⟩
          | cons next rest2 =>
            simp [AtomicCpp.LockFreeQueue.dequeueStep, hc, ht] at hstep
        · cases rest with
          | nil => simp [AtomicCpp.LockFreeQueue.dequeueStep, hc, ht] at hstep
          | cons next rest2 =>
            cases hd : next.data with
            | none => simp [AtomicCpp.LockFreeQueue.dequeueStep, hc, ht, hd] at hstep
            | some v => simp [AtomicCpp.LockFreeQueue.dequeueStep, hc, ht, hd] at hstep
      · rintro ⟨ht, htail⟩
        have hrest : rest = [] := by simpa [hc] using htail
        subst hrest
        simp [AtomicCpp.LockFreeQueue.dequeueStep, hc, ht]

/-- Witness for claim C7 at a lagging queue (head == tail, head->next
non-null) built from the dummy plus one linked node. -/
theorem claim_dequeue_helping_witness :
    c7LaggingQueue.dequeueStep =
      AtomicCpp.DequeueStep.retry { c7LaggingQueue with tailPos := 1 } ∧
    (c7LaggingQueue.dequeueStep = AtomicCpp.DequeueStep.emptyQ ↔
      c7LaggingQueue.tailPos = 0 ∧ c7LaggingQueue.chain.tail = []) :=
  ⟨((claim_dequeue_helping c7LaggingQueue (by decide)).1 (by decide) (by decide)).1,
   (claim_dequeue_helping c7LaggingQueue (by decide)).2⟩

/-- Claim C8 counterexample: the head_ load at the start of dequeue — a load
whose result the operation dereferences — appears in the site table with the
sequentially-consistent default ordering, not acquire, so the stated
acquire/release discipline does not hold of the source (and the table as a
whole violates the stated policy). -/
theorem claim_memory_order_counterexample :
    MemOrderModel.AtomicSite.mk MemOrderModel.AccessKind.load
      MemOrderModel.MemoryOrder.seqCst true false false ∈ MemOrderModel.lockFreeSites ∧
    MemOrderModel.followsSpecPolicy
      (MemOrderModel.AtomicSite.mk MemOrderModel.AccessKind.load
        MemOrderModel.MemoryOrder.seqCst true false false) = false ∧
    MemOrderModel.lockFreeSites.all MemOrderModel.followsSpecPolicy = false := by
  decide

/-- Claim C8 amended: every atomic operation in the stack and queue
implementations uses the sequentially-consistent default ordering (which is
at least as strong as acquire/release) and none of them uses relaxed. -/
theorem claim_memory_order_amended :
    MemOrderModel.lockFreeSites.all
      (fun s => s.order == MemOrderModel.MemoryOrder.seqCst) = true ∧
    MemOrderModel.lockFreeSites.all
      (fun s => !(s.order == MemOrderModel.MemoryOrder.relaxed)) = true := by
  decide

/-- Claim C9: if node (or payload) allocation fails during push or enqueue,
the failure propagates to the caller and the structure is returned exactly
unchanged, because in the source the allocations precede every mutation of
head_, tail_ or any node's next link; when allocation succeeds the checked
operation agrees with the plain one. -/
theorem claim_alloc_failure_safe (s : AtomicCpp.LockFreeStack Nat)
    (q : AtomicCpp.LockFreeQueue Nat) (s4 : AtomicOps04.LockFreeStack Nat)
    (v : Nat) (a : AllocModel.AllocOutcome) :
    AllocModel.stackPushChecked AllocModel.AllocOutcome.fail s v = (some (), s) ∧
    AllocModel.stackPushChecked AllocModel.AllocOutcome.ok s v = (none, s.push v) ∧
    AllocModel.enqueueChecked AllocModel.AllocOutcome.fail a q v = (some (), q) ∧
    AllocModel.enqueueChecked AllocModel.AllocOutcome.ok AllocModel.AllocOutcome.fail q v
      = (some (), q) ∧
    AllocModel.enqueueChecked AllocModel.AllocOutcome.ok AllocModel.AllocOutcome.ok q v
      = (none, q.enqueue v) ∧
    AllocModel.stack04PushChecked AllocModel.AllocOutcome.fail a s4 v = (some (), s4) ∧
    AllocModel.stack04PushChecked AllocModel.AllocOutcome.ok AllocModel.AllocOutcome.fail s4 v
      = (some (), s4) ∧
    AllocModel.stack04PushChecked AllocModel.AllocOutcome.ok AllocModel.AllocOutcome.ok s4 v
      = (none, s4.push v) :=
  ⟨rfl, rfl, rfl, rfl, rfl, rfl, rfl, rfl⟩

/-- Claim C10: the two LockFreeStack implementations are observationally
equivalent as sequential LIFO stacks: any one sequence of push, pop and
empty operations applied to both, starting from their empty states, yields
identical observation traces (popped values, with none standing for the
false return resp. the null unique_ptr, and identical empty() answers). -/
theorem claim_stacks_equivalent :
    ∀ ops : List (StackOp Nat),
      runAtomicCppStack ops (AtomicCpp.LockFreeStack.init Nat) =
      runAtomicOps04Stack ops (AtomicOps04.LockFreeStack.init Nat) :=
  fun ops => run_stack_equiv ops _ _ rfl
